import Mathlib

/-!
Shallow embedding of the resume-parsing service in `app.py`.

External collaborators are modelled as explicit parameters:
* the PDF engine (PyMuPDF/fitz) as a `PdfInput` value — either an invalid
  byte stream (opening raises) or a valid document given by its page texts;
* the generation service (`self.model.generate_content`) as
  `gen : String → Option String`, where `none` models a raised exception;
* the JSON parser (`json.loads`) as `loads : String → Option Json`,
  where `none` models a `JSONDecodeError`.

Python strings are modelled as `String`/`List Char`; the helpers below
reproduce the behaviour of the Python string operations the code uses
(`re.sub`, `str.strip`, `str.replace`, `str.rsplit`, `str.lower`,
`"\n".join`).
-/

/-- Whitespace characters matched by the Python regex class and by
`str.strip` (space, tab, newline, carriage return, vertical tab, form feed). -/
def pySpace (c : Char) : Bool :=
  c = ' ' || c = '\t' || c = '\n' || c = '\r' || c = Char.ofNat 11 || c = Char.ofNat 12

/-- The backtick character, written via its code point. -/
def btChar : Char := Char.ofNat 96

/-- Whether the first list is an initial segment of the second
(character-by-character match). -/
def leadMatch : List Char → List Char → Bool
  | [], _ => true
  | _ :: _, [] => false
  | p :: ps, c :: cs => decide (p = c) && leadMatch ps cs

/-- Whether `pat` occurs as a contiguous substring of `l`. -/
def occursIn (pat : List Char) : List Char → Bool
  | [] => leadMatch pat []
  | c :: cs => leadMatch pat (c :: cs) || occursIn pat cs

/-- Worker for `eraseOcc`: scans the list left to right, deleting each
non-overlapping occurrence of `pat`; `skip` counts characters of a matched
occurrence that remain to be discarded. -/
def eraseAux (pat : List Char) (skip : Nat) : List Char → List Char
  | [] => []
  | c :: cs =>
    match skip with
    | Nat.succ k => eraseAux pat k cs
    | 0 =>
      if 0 < pat.length ∧ leadMatch pat (c :: cs) = true then
        eraseAux pat (pat.length - 1) cs
      else
        c :: eraseAux pat 0 cs

/-- Python `s.replace(pat, "")`: delete every non-overlapping occurrence of
`pat`, scanning left to right. -/
def eraseOcc (pat : List Char) (l : List Char) : List Char :=
  eraseAux pat 0 l

/-- Python `re.sub` of each whitespace run by a single space: collapse every maximal run of
whitespace into a single space.  `prev` records whether we are inside a
whitespace run whose replacement space was already emitted. -/
def collapseWS (prev : Bool) : List Char → List Char
  | [] => []
  | c :: cs =>
    if pySpace c then
      if prev then collapseWS true cs else ' ' :: collapseWS true cs
    else
      c :: collapseWS false cs

/-- Python `str.strip()`: drop whitespace from both ends. -/
def pyStrip (l : List Char) : List Char :=
  (((l.dropWhile pySpace).reverse.dropWhile pySpace)).reverse

/-- Python `sep.join(xs)`. -/
def pyJoin (sep : String) : List String → String
  | [] => ""
  | [s] => s
  | s :: rest => s ++ sep ++ pyJoin sep rest

/-- Python `str.lower()` (ASCII case folding suffices here). -/
def lowerStr (s : String) : String :=
  ⟨s.data.map Char.toLower⟩

/-- Python `filename.rsplit(".", 1)[1]`: the part after the last dot, or
`none` (an `IndexError`) when the string has no dot. -/
def extAfterLastDot (s : String) : Option String :=
  if s.data.contains '.' then
    some ⟨(s.data.reverse.takeWhile (fun c => decide (c ≠ '.'))).reverse⟩
  else
    none

/-- JSON values, as produced by `json.loads`. -/
inductive Json where
  | null
  | bool (b : Bool)
  | num (n : Int)
  | str (s : String)
  | arr (xs : List Json)
  | obj (fields : List (String × Json))

/-- Python truthiness of a decoded JSON value (`if result:` in the
endpoint): None, False, 0, the empty string, [] and the empty dict are falsy. -/
def Json.truthy : Json → Bool
  | .null => false
  | .bool b => b
  | .num n => n ≠ 0
  | .str s => s ≠ ""
  | .arr xs => !xs.isEmpty
  | .obj fs => !fs.isEmpty

/-- The byte stream handed to the extractor, as seen through the PDF
engine: either unparseable (`fitz.open` raises) or a document with a list
of page texts in page order. -/
inductive PdfInput where
  | invalid
  | valid (pages : List String)

/-- A multipart upload: the `file` part of the request. -/
structure UploadedFile where
  filename : String
  content : PdfInput

/-- An HTTP response: status code and JSON body. -/
structure HttpResponse where
  status : Nat
  body : Json

/-- Model of `jsonify` applied to a single-key error dict with message `msg`. -/
def errObj (msg : String) : Json :=
  Json.obj [("error", Json.str msg)]

/-- Constant `ALLOWED_EXTENSIONS` (app.py line 23): the singleton set holding `pdf`. -/
def ALLOWED_EXTENSIONS : List String := ["pdf"]

/-- Embedding of `ResumeParser.extract_text_from_pdf` (app.py lines 36-53): open the
bytes as a PDF, collect `page.get_text("text")` for each page index in
order, and join with newlines; any exception yields `None`. -/
def extract_text_from_pdf (pdf_content : PdfInput) : Option String :=
  match pdf_content with
  | .invalid => none
  | .valid pages =>
    let text_content := (List.range pages.length).map (fun i => pages.getD i "")
    some (pyJoin "\n" text_content)

/-- Embedding of `ResumeParser.preprocess_resume_text` (app.py lines 55-56):
collapse whitespace runs to single spaces with `re.sub`, then `strip()`. -/
def preprocess_resume_text (text : String) : String :=
  ⟨pyStrip (collapseWS false text.data)⟩

/-- Fixed text of the prompt before the embedded resume text. -/
def promptHeader : String :=
  "\n        Please analyze the following resume text and convert it into a structured JSON format.\n        Include the following sections if present:\n        - Personal Information (name, email, phone, location)\n        - Summary/Objective\n        - Work Experience (with company, position, dates, and responsibilities)\n        - Education\n        - Skills\n        - Certifications\n        - Projects\n\n        Resume Text:\n        "

/-- Fixed text of the prompt after the embedded resume text. -/
def promptFooter : String :=
  "\n\n        Provide the output in valid JSON format only, without any additional text.\n        "

/-- Embedding of `ResumeParser._create_prompt` (app.py lines 58-74): the f-string
embedding the resume text verbatim. -/
def _create_prompt (resume_text : String) : String :=
  promptHeader ++ resume_text ++ promptFooter

/-- The opening fence marker with language tag, as a character list. -/
def fenceJson : List Char := String.data "```json"

/-- The bare triple-backtick fence marker, as a character list. -/
def fence : List Char := String.data "```"

/-- Embedding of `ResumeParser._clean_response` (app.py lines 76-77):
delete all occurrences of the tagged fence marker, then of the bare
fence marker, then `strip()`. -/
def _clean_response (response : String) : String :=
  ⟨pyStrip (eraseOcc fence (eraseOcc fenceJson response.data))⟩

/-- Embedding of `ResumeParser.parse_resume` (app.py lines 79-95), instrumented with
the list of prompts actually sent to the generation service (second
component), so that "no model call" is an assertion about the trace.
`gen prompt = none` models the generation call raising; `loads s = none`
models `json.loads` raising; the surrounding `except` returns `None`. -/
def parse_resume (gen : String → Option String) (loads : String → Option Json)
    (pdf_content : PdfInput) : Option Json × List String :=
  match extract_text_from_pdf pdf_content with
  | none => (none, [])
  | some raw_text =>
    if raw_text = "" then (none, [])
    else
      let resume_text := preprocess_resume_text raw_text
      let prompt := _create_prompt resume_text
      match gen prompt with
      | none => (none, [prompt])
      | some reply =>
        match loads (_clean_response reply) with
        | none => (none, [prompt])
        | some resume_json => (some resume_json, [prompt])

/-- Embedding of `allowed_file` (app.py lines 97-98): the filename contains a
dot and the lowercased part after its last dot is an allowed extension. -/
def allowed_file (filename : String) : Bool :=
  filename.data.contains '.' &&
    ((extAfterLastDot filename).map
      (fun e => ALLOWED_EXTENSIONS.contains (lowerStr e))).getD false

/-- Embedding of `parse_resume_endpoint` (app.py lines 114-147).  `req = none` models a
request without a `file` part.  `Except.error` models an exception that
escapes the handler (the bare `rsplit(".", 1)[1]` raises `IndexError` on a
dot-free filename before the `try` block is entered).  The werkzeug
`FileStorage` truthiness test `if file` is `bool(file.filename)`. -/
def parse_resume_endpoint (gen : String → Option String)
    (loads : String → Option Json) (req : Option UploadedFile) :
    Except String HttpResponse :=
  match req with
  | none => Except.ok ⟨400, errObj "No file provided"⟩
  | some file =>
    if file.filename = "" then
      Except.ok ⟨400, errObj "No file selected"⟩
    else
      match extAfterLastDot file.filename with
      | none => Except.error "IndexError: list index out of range"
      | some ext =>
        if lowerStr ext ≠ "pdf" then
          Except.ok ⟨400, errObj "Invalid file type. Only PDF files are allowed"⟩
        else
          if decide (file.filename ≠ "") && allowed_file file.filename then
            match (parse_resume gen loads file.content).1 with
            | some result =>
              if result.truthy then Except.ok ⟨200, result⟩
              else Except.ok ⟨500, errObj "Failed to parse resume"⟩
            | none => Except.ok ⟨500, errObj "Failed to parse resume"⟩
          else
            Except.ok ⟨400, errObj "Invalid file type"⟩

/-! ### Helper lemmas -/

lemma range_map_getD (l : List String) :
    (List.range l.length).map (fun i => l.getD i "") = l := by
  induction l with
  | nil => rfl
  | cons a t ih =>
    rw [List.length_cons, List.range_succ_eq_map, List.map_cons, List.map_map]
    have hf : ((fun i => (a :: t).getD i "") ∘ Nat.succ) = (fun i => t.getD i "") := rfl
    rw [List.getD_cons_zero, hf, ih]

lemma foldl_join_shift (rest : List String) :
    ∀ a b : String,
      a ++ List.foldl (fun acc q => acc ++ "\n" ++ q) b rest =
        List.foldl (fun acc q => acc ++ "\n" ++ q) (a ++ b) rest := by
  induction rest with
  | nil => intro a b; rfl
  | cons q rest ih =>
    intro a b
    simp only [List.foldl_cons]
    rw [ih]
    congr 1
    simp [String.append_assoc]

lemma pyJoin_eq_foldl (ps : List String) :
    ∀ p : String,
      pyJoin "\n" (p :: ps) = List.foldl (fun acc q => acc ++ "\n" ++ q) p ps := by
  induction ps with
  | nil => intro p; rfl
  | cons q rest ih =>
    intro p
    show p ++ "\n" ++ pyJoin "\n" (q :: rest) = _
    rw [ih q, foldl_join_shift, List.foldl_cons]

lemma contains_dot_of_ext (s : String) (e : String)
    (h : extAfterLastDot s = some e) : s.data.contains '.' = true := by
  unfold extAfterLastDot at h
  split at h
  · assumption
  · exact absurd h (by simp)

lemma allowed_file_of_ext_pdf (s : String) (e : String)
    (h : extAfterLastDot s = some e) (hl : lowerStr e = "pdf") :
    allowed_file s = true := by
  unfold allowed_file
  rw [contains_dot_of_ext s e h, h]
  simp [hl, ALLOWED_EXTENSIONS]

/-- Adjacency invariant of normalized text: no two consecutive
whitespace characters. -/
def noAdjWS (x y : Char) : Prop :=
  ¬(pySpace x = true ∧ pySpace y = true)

lemma mem_collapseWS (l : List Char) :
    ∀ (b : Bool) (c : Char), c ∈ collapseWS b l → pySpace c = true → c = ' ' := by
  induction l with
  | nil => intro b c hc _; simp [collapseWS] at hc
  | cons h t ih =>
    intro b c hc hws
    by_cases hps : pySpace h = true
    · cases b with
      | true =>
        rw [show collapseWS true (h :: t) = collapseWS true t by
          simp [collapseWS, hps]] at hc
        exact ih true c hc hws
      | false =>
        rw [show collapseWS false (h :: t) = ' ' :: collapseWS true t by
          simp [collapseWS, hps]] at hc
        rcases List.mem_cons.mp hc with h1 | h1
        · exact h1
        · exact ih true c h1 hws
    · rw [show collapseWS b (h :: t) = h :: collapseWS false t by
        simp [collapseWS, hps]] at hc
      rcases List.mem_cons.mp hc with h1 | h1
      · rw [h1] at hws; exact absurd hws hps
      · exact ih false c h1 hws

lemma head_collapseWS_true (l : List Char) :
    ∀ c : Char, (collapseWS true l).head? = some c → pySpace c = false := by
  induction l with
  | nil => intro c hc; simp [collapseWS] at hc
  | cons h t ih =>
    intro c hc
    by_cases hps : pySpace h = true
    · rw [show collapseWS true (h :: t) = collapseWS true t by
        simp [collapseWS, hps]] at hc
      exact ih c hc
    · rw [show collapseWS true (h :: t) = h :: collapseWS false t by
        simp [collapseWS, hps]] at hc
      simp only [List.head?_cons, Option.some.injEq] at hc
      rw [← hc]
      exact Bool.not_eq_true _ ▸ hps

lemma chain_collapseWS (l : List Char) :
    ∀ b : Bool, List.Chain' noAdjWS (collapseWS b l) := by
  induction l with
  | nil => intro b; simp [collapseWS]
  | cons h t ih =>
    intro b
    by_cases hps : pySpace h = true
    · cases b with
      | true =>
        rw [show collapseWS true (h :: t) = collapseWS true t by
          simp [collapseWS, hps]]
        exact ih true
      | false =>
        rw [show collapseWS false (h :: t) = ' ' :: collapseWS true t by
          simp [collapseWS, hps]]
        rw [List.chain'_cons']
        refine ⟨?_, ih true⟩
        intro y hy hcon
        have hfalse := head_collapseWS_true t y hy
        exact absurd (hcon.2.symm.trans hfalse) (by decide)
    · rw [show collapseWS b (h :: t) = h :: collapseWS false t by
        simp [collapseWS, hps]]
      rw [List.chain'_cons']
      refine ⟨?_, ih false⟩
      intro y _ hcon
      exact hps hcon.1

lemma collapseWS_fix (l : List Char) :
    ∀ b : Bool, (∀ c ∈ l, pySpace c = true → c = ' ') →
      List.Chain' noAdjWS l →
      (b = true → ∀ c, l.head? = some c → pySpace c = false) →
      collapseWS b l = l := by
  induction l with
  | nil => intro b _ _ _; rfl
  | cons h t ih =>
    intro b hall hchain hhead
    rw [List.chain'_cons'] at hchain
    by_cases hps : pySpace h = true
    · cases b with
      | true =>
        exact absurd hps (by simp [hhead rfl h rfl])
      | false =>
        rw [show collapseWS false (h :: t) = ' ' :: collapseWS true t by
          simp [collapseWS, hps]]
        have hh : h = ' ' := hall h (List.mem_cons_self h t) hps
        rw [ih true (fun c hc => hall c (List.mem_cons_of_mem h hc)) hchain.2 ?_]
        · rw [hh]
        · intro _ c hc
          have := hchain.1 c hc
          unfold noAdjWS at this
          by_contra hcy
          exact this ⟨hps, by revert hcy; cases pySpace c <;> simp⟩
    · rw [show collapseWS b (h :: t) = h :: collapseWS false t by
        simp [collapseWS, hps]]
      rw [ih false (fun c hc => hall c (List.mem_cons_of_mem h hc)) hchain.2
        (by intro hfalse; exact absurd hfalse (by simp))]

lemma mem_pyStrip (l : List Char) (c : Char) (hc : c ∈ pyStrip l) : c ∈ l := by
  unfold pyStrip at hc
  rw [List.mem_reverse] at hc
  have h1 := List.dropWhile_subset (l := (l.dropWhile pySpace).reverse) pySpace hc
  rw [List.mem_reverse] at h1
  exact List.dropWhile_subset pySpace h1

lemma pyStrip_within (l : List Char) : pyStrip l <:+: l := by
  obtain ⟨s, hs⟩ := List.dropWhile_suffix (l := l) pySpace
  obtain ⟨t, ht⟩ := List.dropWhile_suffix (l := (l.dropWhile pySpace).reverse) pySpace
  refine ⟨s, t.reverse, ?_⟩
  have hu : pyStrip l ++ t.reverse = l.dropWhile pySpace := by
    unfold pyStrip
    rw [← List.reverse_append, ht, List.reverse_reverse]
  rw [List.append_assoc, hu, hs]

lemma chain_pyStrip (l : List Char) (h : List.Chain' noAdjWS l) :
    List.Chain' noAdjWS (pyStrip l) :=
  List.Chain'.infix h (pyStrip_within l)

lemma head_dropWhile_false (p : Char → Bool) (l : List Char) :
    ∀ c, (l.dropWhile p).head? = some c → p c = false := by
  induction l with
  | nil => intro c hc; simp [List.dropWhile] at hc
  | cons h t ih =>
    intro c hc
    by_cases hp : p h = true
    · rw [List.dropWhile_cons_of_pos hp] at hc
      exact ih c hc
    · rw [List.dropWhile_cons_of_neg hp] at hc
      simp only [List.head?_cons, Option.some.injEq] at hc
      rw [← hc]
      exact Bool.not_eq_true _ ▸ hp

lemma head_pyStrip (l : List Char) :
    ∀ c, (pyStrip l).head? = some c → pySpace c = false := by
  intro c hc
  unfold pyStrip at hc
  rw [List.head?_reverse] at hc
  obtain ⟨t, ht⟩ := List.dropWhile_suffix (l := (l.dropWhile pySpace).reverse) pySpace
  have hw : (l.dropWhile pySpace).reverse.getLast? = some c := by
    rw [← ht, List.getLast?_append, hc, Option.or_some]
  rw [List.getLast?_reverse] at hw
  exact head_dropWhile_false pySpace l c hw

lemma getLast_pyStrip (l : List Char) :
    ∀ c, (pyStrip l).getLast? = some c → pySpace c = false := by
  intro c hc
  unfold pyStrip at hc
  rw [List.getLast?_reverse] at hc
  exact head_dropWhile_false pySpace _ c hc

lemma dropWhile_eq_self_of_head (p : Char → Bool) (l : List Char)
    (h : ∀ c, l.head? = some c → p c = false) : l.dropWhile p = l := by
  cases l with
  | nil => rfl
  | cons a t => rw [List.dropWhile_cons_of_neg (by simp [h a rfl])]

lemma pyStrip_fix (l : List Char)
    (hh : ∀ c, l.head? = some c → pySpace c = false)
    (hl : ∀ c, l.getLast? = some c → pySpace c = false) :
    pyStrip l = l := by
  unfold pyStrip
  rw [dropWhile_eq_self_of_head pySpace l hh]
  rw [dropWhile_eq_self_of_head pySpace l.reverse (by
    intro c hc
    rw [List.head?_reverse] at hc
    exact hl c hc)]
  exact List.reverse_reverse l

/-! ### Claim theorems -/

/-- C6: whitespace normalization (`preprocess_resume_text`) is idempotent:
for every input string, applying it twice equals applying it once, so an
already-normalized string (an output of the function) is returned
unchanged. -/
theorem preprocess_resume_text_idempotent (s : String) :
    preprocess_resume_text (preprocess_resume_text s) = preprocess_resume_text s := by
  have hfix : collapseWS false (pyStrip (collapseWS false s.data)) =
      pyStrip (collapseWS false s.data) :=
    collapseWS_fix _ false
      (fun c hc hw => mem_collapseWS s.data false c (mem_pyStrip _ c hc) hw)
      (chain_pyStrip _ (chain_collapseWS s.data false))
      (fun h => absurd h Bool.false_ne_true)
  have hstrip : pyStrip (pyStrip (collapseWS false s.data)) =
      pyStrip (collapseWS false s.data) :=
    pyStrip_fix _ (head_pyStrip _) (getLast_pyStrip _)
  show String.mk (pyStrip (collapseWS false (pyStrip (collapseWS false s.data)))) =
    String.mk (pyStrip (collapseWS false s.data))
  rw [hfix, hstrip]

/-- C5: for every valid PDF with pages P1, ..., Pn (n ≥ 1, in page order),
`extract_text_from_pdf` returns `P1 ++ "\n" ++ P2 ++ ... ++ "\n" ++ Pn`
(page texts joined by single newlines, page order preserved), before any
normalization. -/
theorem extract_text_joins_pages (p : String) (ps : List String) :
    extract_text_from_pdf (PdfInput.valid (p :: ps)) =
      some (List.foldl (fun acc q => acc ++ "\n" ++ q) p ps) := by
  show some (pyJoin "\n" ((List.range (p :: ps).length).map
    (fun i => (p :: ps).getD i ""))) = _
  rw [range_map_getD (p :: ps), pyJoin_eq_foldl ps p]

/-- C3: a byte stream that is not a valid/parseable PDF makes
`extract_text_from_pdf` return the failure value `none` (the caught
exception), and the extractor is total (in the model no exception escapes:
every valid document yields `some` text); a zero-page document yields
`some ""`, not a failure. -/
theorem extract_text_invalid_pdf_failure :
    extract_text_from_pdf PdfInput.invalid = none ∧
    extract_text_from_pdf (PdfInput.valid []) = some "" ∧
    ∀ pages : List String, ∃ t : String,
      extract_text_from_pdf (PdfInput.valid pages) = some t :=
  ⟨rfl, rfl, fun _ => ⟨_, rfl⟩⟩

/-- C1: whenever text extraction yields the empty string, `parse_resume`
returns the failure value immediately and the prompt trace is empty: no
prompt is built and the generation service is never called. -/
theorem parse_resume_empty_text_no_call (gen : String → Option String)
    (loads : String → Option Json) (pdf : PdfInput)
    (h : extract_text_from_pdf pdf = some "") :
    parse_resume gen loads pdf = (none, []) := by
  unfold parse_resume
  rw [h]
  rfl

/-- Witness for C1 at the concrete zero-page document. -/
theorem parse_resume_empty_text_no_call_witness :
    extract_text_from_pdf (PdfInput.valid []) = some "" ∧
    parse_resume (fun _ => some "reply") (fun _ => some Json.null)
      (PdfInput.valid []) = (none, []) :=
  ⟨rfl, parse_resume_empty_text_no_call _ _ _ rfl⟩

/-- C2: a POST /predict request whose `file` part has a non-empty filename
with an extension (the part after the last dot, lowercased) different from
`pdf` is answered with status 400 and the error body
`errObj "Invalid file type. Only PDF files are allowed"`. -/
theorem endpoint_rejects_non_pdf (gen : String → Option String)
    (loads : String → Option Json) (file : UploadedFile) (e : String)
    (hne : file.filename ≠ "")
    (hext : extAfterLastDot file.filename = some e)
    (hpdf : lowerStr e ≠ "pdf") :
    parse_resume_endpoint gen loads (some file) =
      Except.ok ⟨400, errObj "Invalid file type. Only PDF files are allowed"⟩ := by
  unfold parse_resume_endpoint
  simp only [hext]
  rw [if_neg hne, if_pos hpdf]

/-- Witness for C2: a `.txt`-named upload. -/
theorem endpoint_rejects_non_pdf_witness :
    ("a.txt" : String) ≠ "" ∧ extAfterLastDot "a.txt" = some "txt" ∧
    lowerStr "txt" ≠ "pdf" ∧
    parse_resume_endpoint (fun _ => none) (fun _ => none)
      (some ⟨"a.txt", PdfInput.invalid⟩) =
      Except.ok ⟨400, errObj "Invalid file type. Only PDF files are allowed"⟩ :=
  ⟨by decide, by decide, by decide,
    endpoint_rejects_non_pdf _ _ ⟨"a.txt", PdfInput.invalid⟩ "txt"
      (by decide) (by decide) (by decide)⟩

/-- C4: when the generation call succeeds but the cleaned reply is not
valid JSON (`loads` fails on it), `parse_resume` returns the failure
value, and the endpoint surfaces it as status 500 with the error body
`errObj "Failed to parse resume"`. -/
theorem endpoint_nonjson_reply_500 (gen : String → Option String)
    (loads : String → Option Json) (file : UploadedFile)
    (e raw reply : String)
    (hne : file.filename ≠ "")
    (hext : extAfterLastDot file.filename = some e)
    (hpdf : lowerStr e = "pdf")
    (hex : extract_text_from_pdf file.content = some raw)
    (hraw : raw ≠ "")
    (hgen : gen (_create_prompt (preprocess_resume_text raw)) = some reply)
    (hloads : loads (_clean_response reply) = none) :
    (parse_resume gen loads file.content).1 = none ∧
    parse_resume_endpoint gen loads (some file) =
      Except.ok ⟨500, errObj "Failed to parse resume"⟩ := by
  have hpr : parse_resume gen loads file.content =
      (none, [_create_prompt (preprocess_resume_text raw)]) := by
    unfold parse_resume
    simp only [hex]
    rw [if_neg hraw]
    simp only [hgen, hloads]
  refine ⟨by rw [hpr], ?_⟩
  unfold parse_resume_endpoint
  simp only [hext]
  rw [if_neg hne, if_neg (by rw [hpdf]; exact fun hcon => hcon rfl)]
  have hcond : (decide (file.filename ≠ "") && allowed_file file.filename) = true := by
    rw [allowed_file_of_ext_pdf _ e hext hpdf, decide_eq_true hne]
    rfl
  rw [if_pos hcond]
  simp only [hpr]

/-- Witness for C4: a one-page PDF, a generation service answering with
prose, and a JSON parser that rejects everything. -/
theorem endpoint_nonjson_reply_500_witness :
    extract_text_from_pdf (PdfInput.valid ["John"]) = some "John" ∧
    parse_resume_endpoint (fun _ => some "I cannot process this")
      (fun _ => none) (some ⟨"r.pdf", PdfInput.valid ["John"]⟩) =
      Except.ok ⟨500, errObj "Failed to parse resume"⟩ :=
  ⟨rfl,
    (endpoint_nonjson_reply_500 (fun _ => some "I cannot process this")
      (fun _ => none) ⟨"r.pdf", PdfInput.valid ["John"]⟩ "pdf" "John"
      "I cannot process this" (by decide) (by decide) (by decide) rfl
      (by decide) rfl rfl).2⟩

/-- C8: when the cleaned reply parses to a JSON value that is falsy in
Python (such as the empty object), `parse_resume` returns it successfully,
but the endpoint truthiness test `if result:` sends the 500 "Failed to parse
resume" response instead of the parsed value with status 200. -/
theorem endpoint_falsy_json_500 (gen : String → Option String)
    (loads : String → Option Json) (file : UploadedFile)
    (e raw reply : String) (j : Json)
    (hne : file.filename ≠ "")
    (hext : extAfterLastDot file.filename = some e)
    (hpdf : lowerStr e = "pdf")
    (hex : extract_text_from_pdf file.content = some raw)
    (hraw : raw ≠ "")
    (hgen : gen (_create_prompt (preprocess_resume_text raw)) = some reply)
    (hloads : loads (_clean_response reply) = some j)
    (htr : j.truthy = false) :
    (parse_resume gen loads file.content).1 = some j ∧
    parse_resume_endpoint gen loads (some file) =
      Except.ok ⟨500, errObj "Failed to parse resume"⟩ := by
  have hpr : parse_resume gen loads file.content =
      (some j, [_create_prompt (preprocess_resume_text raw)]) := by
    unfold parse_resume
    simp only [hex]
    rw [if_neg hraw]
    simp only [hgen, hloads]
  refine ⟨by rw [hpr], ?_⟩
  unfold parse_resume_endpoint
  simp only [hext]
  rw [if_neg hne, if_neg (by rw [hpdf]; exact fun hcon => hcon rfl)]
  have hcond : (decide (file.filename ≠ "") && allowed_file file.filename) = true := by
    rw [allowed_file_of_ext_pdf _ e hext hpdf, decide_eq_true hne]
    rfl
  rw [if_pos hcond]
  simp only [hpr, htr]
  rfl

/-- Witness for C8: an empty-object model reply decoded to the empty object. -/
theorem endpoint_falsy_json_500_witness :
    Json.truthy (Json.obj []) = false ∧
    (parse_resume (fun _ => some "\x7b\x7d") (fun _ => some (Json.obj []))
      (PdfInput.valid ["John"])).1 = some (Json.obj []) ∧
    parse_resume_endpoint (fun _ => some "\x7b\x7d")
      (fun _ => some (Json.obj [])) (some ⟨"r.pdf", PdfInput.valid ["John"]⟩) =
      Except.ok ⟨500, errObj "Failed to parse resume"⟩ := by
  have h := endpoint_falsy_json_500 (fun _ => some "\x7b\x7d")
    (fun _ => some (Json.obj [])) ⟨"r.pdf", PdfInput.valid ["John"]⟩ "pdf"
    "John" "\x7b\x7d" (Json.obj []) (by decide) (by decide) (by decide) rfl
    (by decide) rfl rfl rfl
  exact ⟨rfl, h.1, h.2⟩

/-- C9: once the three preceding checks pass (a `file` part exists, the
filename is non-empty, and the part after its last dot lowercases to
`pdf`), `allowed_file` is true; consequently the handler's final
fallthrough branch, status 400 with the error body
`errObj "Invalid file type"`, is never returned on any request. -/
theorem endpoint_fallthrough_unreachable :
    (∀ fname e : String, fname ≠ "" → extAfterLastDot fname = some e →
      lowerStr e = "pdf" → allowed_file fname = true) ∧
    ∀ (gen : String → Option String) (loads : String → Option Json)
      (req : Option UploadedFile),
      parse_resume_endpoint gen loads req ≠
        Except.ok ⟨400, errObj "Invalid file type"⟩ := by
  refine ⟨fun fname e _ hext hl => allowed_file_of_ext_pdf fname e hext hl, ?_⟩
  intro gen loads req h
  match req with
  | none =>
    rw [show parse_resume_endpoint gen loads none =
      Except.ok ⟨400, errObj "No file provided"⟩ from rfl] at h
    simp [errObj] at h
  | some file =>
    simp only [parse_resume_endpoint] at h
    by_cases h1 : file.filename = ""
    · rw [if_pos h1] at h
      simp [errObj] at h
    · rw [if_neg h1] at h
      cases hext : extAfterLastDot file.filename with
      | none =>
        simp only [hext] at h
        exact Except.noConfusion h
      | some e =>
        simp only [hext] at h
        by_cases h2 : lowerStr e ≠ "pdf"
        · rw [if_pos h2] at h
          simp [errObj] at h
        · rw [if_neg h2] at h
          have hcond : (decide (file.filename ≠ "") &&
              allowed_file file.filename) = true := by
            rw [allowed_file_of_ext_pdf _ e hext (not_not.mp h2),
              decide_eq_true h1]
            rfl
          rw [if_pos hcond] at h
          cases hpr : (parse_resume gen loads file.content).1 with
          | none =>
            simp only [hpr] at h
            simp [errObj] at h
          | some r =>
            simp only [hpr] at h
            by_cases ht : r.truthy = true
            · rw [if_pos ht] at h
              simp [errObj] at h
            · rw [if_neg ht] at h
              simp [errObj] at h

/-- Witness for C9 at a concrete pdf-named upload and a concrete request. -/
theorem endpoint_fallthrough_unreachable_witness :
    allowed_file "a.pdf" = true ∧
    parse_resume_endpoint (fun _ => none) (fun _ => none)
      (some ⟨"a.pdf", PdfInput.invalid⟩) ≠
      Except.ok ⟨400, errObj "Invalid file type"⟩ :=
  ⟨endpoint_fallthrough_unreachable.1 "a.pdf" "pdf" (by decide) (by decide)
      (by decide),
    endpoint_fallthrough_unreachable.2 (fun _ => none) (fun _ => none)
      (some ⟨"a.pdf", PdfInput.invalid⟩)⟩

/-! ### Fence-stripping lemmas for `_clean_response` -/

lemma fenceJson_eq : fenceJson = [btChar, btChar, btChar, 'j', 's', 'o', 'n'] := by
  decide

lemma fence_eq : fence = [btChar, btChar, btChar] := by decide

lemma fenceJson_head : fenceJson.head? = some btChar := by rw [fenceJson_eq]; rfl

lemma fence_head : fence.head? = some btChar := by rw [fence_eq]; rfl

lemma fenceJson_ne_nil : fenceJson ≠ [] := by rw [fenceJson_eq]; simp

lemma fence_ne_nil : fence ≠ [] := by rw [fence_eq]; simp

lemma leadMatch_cons_self (x : Char) (xs ys : List Char) :
    leadMatch (x :: xs) (x :: ys) = leadMatch xs ys := by
  show (decide (x = x) && leadMatch xs ys) = leadMatch xs ys
  rw [decide_eq_true rfl, Bool.true_and]

lemma leadMatch_cons_ne (x y : Char) (xs ys : List Char) (h : x ≠ y) :
    leadMatch (x :: xs) (y :: ys) = false := by
  show (decide (x = y) && leadMatch xs ys) = false
  rw [decide_eq_false h, Bool.false_and]

lemma leadMatch_append_self (p : List Char) :
    ∀ l : List Char, leadMatch p (p ++ l) = true := by
  induction p with
  | nil => intro l; rfl
  | cons a ps ih => intro l; rw [List.cons_append, leadMatch_cons_self]; exact ih l

lemma eraseOcc_cons_of_no_match (pat : List Char) (c : Char) (cs : List Char)
    (h : leadMatch pat (c :: cs) = false) :
    eraseOcc pat (c :: cs) = c :: eraseOcc pat cs := by
  show (if 0 < pat.length ∧ leadMatch pat (c :: cs) = true then
      eraseAux pat (pat.length - 1) cs
    else c :: eraseAux pat 0 cs) = c :: eraseOcc pat cs
  rw [if_neg (by rw [h]; exact fun hcon => Bool.false_ne_true hcon.2)]
  rfl

lemma eraseAux_drop (pat : List Char) :
    ∀ (l : List Char) (k : Nat), eraseAux pat k l = eraseOcc pat (l.drop k) := by
  intro l
  induction l with
  | nil => intro k; cases k <;> rfl
  | cons c cs ih =>
    intro k
    cases k with
    | zero => rfl
    | succ k =>
      rw [show eraseAux pat (k + 1) (c :: cs) = eraseAux pat k cs from rfl,
        ih k, List.drop_succ_cons]

lemma eraseOcc_self_append (pat : List Char) (hpat : pat ≠ []) (l : List Char) :
    eraseOcc pat (pat ++ l) = eraseOcc pat l := by
  cases pat with
  | nil => exact absurd rfl hpat
  | cons p ps =>
    show (if 0 < (p :: ps).length ∧ leadMatch (p :: ps) (p :: (ps ++ l)) = true then
        eraseAux (p :: ps) ((p :: ps).length - 1) (ps ++ l)
      else p :: eraseAux (p :: ps) 0 (ps ++ l)) = eraseOcc (p :: ps) l
    rw [if_pos ⟨Nat.succ_pos _, leadMatch_append_self (p :: ps) l⟩, eraseAux_drop,
      show (ps ++ l).drop ((p :: ps).length - 1) = l by
        rw [List.length_cons, Nat.add_sub_cancel, List.drop_left]]

lemma eraseOcc_append_nobt (pat : List Char) (hpat : pat.head? = some btChar)
    (l1 : List Char) (l2 : List Char) (hno : ∀ c ∈ l1, c ≠ btChar) :
    eraseOcc pat (l1 ++ l2) = l1 ++ eraseOcc pat l2 := by
  induction l1 with
  | nil => rfl
  | cons c cs ih =>
    cases pat with
    | nil => exact absurd hpat (by simp)
    | cons p ps =>
      have hp : p = btChar := by
        rw [List.head?_cons, Option.some.injEq] at hpat
        exact hpat
      have hlm : leadMatch (p :: ps) (c :: (cs ++ l2)) = false := by
        rw [hp]
        exact leadMatch_cons_ne _ _ _ _
          (fun hcon => (hno c (List.mem_cons_self c cs)) hcon.symm)
      rw [List.cons_append, eraseOcc_cons_of_no_match _ _ _ hlm,
        ih (fun x hx => hno x (List.mem_cons_of_mem c hx)), List.cons_append]

lemma eraseOcc_of_not_occurs (pat : List Char) :
    ∀ l : List Char, occursIn pat l = false → eraseOcc pat l = l := by
  intro l
  induction l with
  | nil => intro _; rfl
  | cons c cs ih =>
    intro h
    rw [show occursIn pat (c :: cs) =
      (leadMatch pat (c :: cs) || occursIn pat cs) from rfl,
      Bool.or_eq_false_iff] at h
    rw [eraseOcc_cons_of_no_match _ _ _ h.1, ih h.2]

lemma occursIn_append_nobt (pat : List Char) (hpat : pat.head? = some btChar)
    (l1 : List Char) (l2 : List Char) (hno : ∀ c ∈ l1, c ≠ btChar) :
    occursIn pat (l1 ++ l2) = occursIn pat l2 := by
  induction l1 with
  | nil => rfl
  | cons c cs ih =>
    cases pat with
    | nil => exact absurd hpat (by simp)
    | cons p ps =>
      have hp : p = btChar := by
        rw [List.head?_cons, Option.some.injEq] at hpat
        exact hpat
      have hlm : leadMatch (p :: ps) (c :: (cs ++ l2)) = false := by
        rw [hp]
        exact leadMatch_cons_ne _ _ _ _
          (fun hcon => (hno c (List.mem_cons_self c cs)) hcon.symm)
      rw [List.cons_append,
        show occursIn (p :: ps) (c :: (cs ++ l2)) =
          (leadMatch (p :: ps) (c :: (cs ++ l2)) || occursIn (p :: ps) (cs ++ l2))
          from rfl,
        hlm, Bool.false_or]
      exact ih (fun x hx => hno x (List.mem_cons_of_mem c hx))

lemma not_occurs_nobt (pat : List Char) (hpat : pat.head? = some btChar)
    (l : List Char) (hno : ∀ c ∈ l, c ≠ btChar) : occursIn pat l = false := by
  have h := occursIn_append_nobt pat hpat l [] hno
  rw [List.append_nil] at h
  rw [h]
  cases pat with
  | nil => exact absurd hpat (by simp)
  | cons p ps => rfl

lemma pySpace_ne_j_bt (c : Char) (h : pySpace c = true) :
    c ≠ 'j' ∧ c ≠ btChar := by
  simp only [pySpace, Bool.or_eq_true, decide_eq_true_eq] at h
  rcases h with ((((h | h) | h) | h) | h) | h <;> subst h <;>
    exact ⟨by decide, by decide⟩

lemma nobt_of_ws (l : List Char) (h : ∀ c ∈ l, pySpace c = true) :
    ∀ c ∈ l, c ≠ btChar :=
  fun c hc => (pySpace_ne_j_bt c (h c hc)).2

lemma not_occurs_fenceJson_fence (rest : List Char)
    (hhead : ∀ c, rest.head? = some c → c ≠ 'j' ∧ c ≠ btChar)
    (hrest : occursIn fenceJson rest = false) :
    occursIn fenceJson (fence ++ rest) = false := by
  rw [fence_eq]
  show (leadMatch fenceJson (btChar :: btChar :: btChar :: rest) ||
    (leadMatch fenceJson (btChar :: btChar :: rest) ||
      (leadMatch fenceJson (btChar :: rest) || occursIn fenceJson rest))) = false
  rw [hrest, fenceJson_eq]
  simp only [leadMatch_cons_self]
  cases rest with
  | nil => rfl
  | cons w ws =>
    obtain ⟨hj, hb⟩ := hhead w rfl
    rw [leadMatch_cons_ne 'j' w _ _ (fun hcon => hj hcon.symm),
      leadMatch_cons_ne btChar w _ _ (fun hcon => hb hcon.symm),
      leadMatch_cons_ne btChar w _ _ (fun hcon => hb hcon.symm)]
    rfl

lemma eraseOcc_fenceJson_tagged (a b p c d : List Char)
    (ha : ∀ x ∈ a, x ≠ btChar) (hb : ∀ x ∈ b, x ≠ btChar)
    (hp : ∀ x ∈ p, x ≠ btChar) (hc : ∀ x ∈ c, x ≠ btChar)
    (hdws : ∀ x ∈ d, pySpace x = true) :
    eraseOcc fenceJson (a ++ (fenceJson ++ (b ++ (p ++ (c ++ (fence ++ d)))))) =
      a ++ (b ++ (p ++ (c ++ (fence ++ d)))) := by
  have hd : ∀ x ∈ d, x ≠ btChar := nobt_of_ws d hdws
  have hocc_fd : occursIn fenceJson (fence ++ d) = false :=
    not_occurs_fenceJson_fence d
      (fun x hx => pySpace_ne_j_bt x (hdws x (by
        cases d with
        | nil => exact absurd hx (by simp)
        | cons y ys =>
          rw [List.head?_cons, Option.some.injEq] at hx
          rw [← hx]
          exact List.mem_cons_self y ys)))
      (not_occurs_nobt fenceJson fenceJson_head d hd)
  rw [eraseOcc_append_nobt fenceJson fenceJson_head a _ ha,
    eraseOcc_self_append fenceJson fenceJson_ne_nil _,
    eraseOcc_of_not_occurs fenceJson _ (by
      rw [occursIn_append_nobt fenceJson fenceJson_head b _ hb,
        occursIn_append_nobt fenceJson fenceJson_head p _ hp,
        occursIn_append_nobt fenceJson fenceJson_head c _ hc]
      exact hocc_fd)]

lemma eraseOcc_fenceJson_untagged (a b p c d : List Char)
    (ha : ∀ x ∈ a, x ≠ btChar) (hb : ∀ x ∈ b, x ≠ btChar)
    (hp : ∀ x ∈ p, x ≠ btChar) (hc : ∀ x ∈ c, x ≠ btChar)
    (hdws : ∀ x ∈ d, pySpace x = true)
    (hbne : b ≠ []) (hbws : ∀ x ∈ b, pySpace x = true) :
    eraseOcc fenceJson (a ++ (fence ++ (b ++ (p ++ (c ++ (fence ++ d)))))) =
      a ++ (fence ++ (b ++ (p ++ (c ++ (fence ++ d))))) := by
  have hd : ∀ x ∈ d, x ≠ btChar := nobt_of_ws d hdws
  have hocc_fd : occursIn fenceJson (fence ++ d) = false :=
    not_occurs_fenceJson_fence d
      (fun x hx => pySpace_ne_j_bt x (hdws x (by
        cases d with
        | nil => exact absurd hx (by simp)
        | cons y ys =>
          rw [List.head?_cons, Option.some.injEq] at hx
          rw [← hx]
          exact List.mem_cons_self y ys)))
      (not_occurs_nobt fenceJson fenceJson_head d hd)
  have hocc_rest : occursIn fenceJson (b ++ (p ++ (c ++ (fence ++ d)))) = false := by
    rw [occursIn_append_nobt fenceJson fenceJson_head b _ hb,
      occursIn_append_nobt fenceJson fenceJson_head p _ hp,
      occursIn_append_nobt fenceJson fenceJson_head c _ hc]
    exact hocc_fd
  apply eraseOcc_of_not_occurs
  rw [occursIn_append_nobt fenceJson fenceJson_head a _ ha]
  exact not_occurs_fenceJson_fence _
    (fun x hx => by
      cases b with
      | nil => exact absurd rfl hbne
      | cons y ys =>
        rw [List.cons_append, List.head?_cons, Option.some.injEq] at hx
        rw [← hx]
        exact pySpace_ne_j_bt y (hbws y (List.mem_cons_self y ys)))
    hocc_rest

lemma eraseOcc_fence_chain (a b p c d : List Char)
    (ha : ∀ x ∈ a, x ≠ btChar) (hb : ∀ x ∈ b, x ≠ btChar)
    (hp : ∀ x ∈ p, x ≠ btChar) (hc : ∀ x ∈ c, x ≠ btChar)
    (hd : ∀ x ∈ d, x ≠ btChar) :
    eraseOcc fence (a ++ (b ++ (p ++ (c ++ (fence ++ d))))) =
      a ++ (b ++ (p ++ (c ++ d))) := by
  rw [eraseOcc_append_nobt fence fence_head a _ ha,
    eraseOcc_append_nobt fence fence_head b _ hb,
    eraseOcc_append_nobt fence fence_head p _ hp,
    eraseOcc_append_nobt fence fence_head c _ hc,
    eraseOcc_self_append fence fence_ne_nil d,
    eraseOcc_of_not_occurs fence d (not_occurs_nobt fence fence_head d hd)]

lemma dropWhile_ws_append (w l : List Char) (hw : ∀ c ∈ w, pySpace c = true) :
    (w ++ l).dropWhile pySpace = l.dropWhile pySpace := by
  induction w with
  | nil => rfl
  | cons c cs ih =>
    rw [List.cons_append,
      List.dropWhile_cons_of_pos (hw c (List.mem_cons_self c cs))]
    exact ih (fun x hx => hw x (List.mem_cons_of_mem c hx))

lemma pyStrip_ws_sandwich (w1 p w2 : List Char)
    (h1 : ∀ c ∈ w1, pySpace c = true) (h2 : ∀ c ∈ w2, pySpace c = true)
    (hpne : p ≠ [])
    (hh : ∀ c, p.head? = some c → pySpace c = false)
    (hl : ∀ c, p.getLast? = some c → pySpace c = false) :
    pyStrip (w1 ++ (p ++ w2)) = p := by
  have hfront : ∀ x, (p ++ w2).head? = some x → pySpace x = false := by
    intro x hx
    cases p with
    | nil => exact absurd rfl hpne
    | cons y ys =>
      rw [List.cons_append, List.head?_cons, Option.some.injEq] at hx
      exact hh x (by rw [List.head?_cons, hx])
  have hback : ∀ x, p.reverse.head? = some x → pySpace x = false := by
    intro x hx
    rw [List.head?_reverse] at hx
    exact hl x hx
  have hw2r : ∀ x ∈ w2.reverse, pySpace x = true := by
    intro x hx
    rw [List.mem_reverse] at hx
    exact h2 x hx
  unfold pyStrip
  rw [dropWhile_ws_append w1 (p ++ w2) h1,
    dropWhile_eq_self_of_head pySpace (p ++ w2) hfront,
    List.reverse_append,
    dropWhile_ws_append w2.reverse p.reverse hw2r,
    dropWhile_eq_self_of_head pySpace p.reverse hback]
  exact List.reverse_reverse p

lemma eraseOcc_fence_chain3 (b p c d : List Char)
    (hb : ∀ x ∈ b, x ≠ btChar) (hp : ∀ x ∈ p, x ≠ btChar)
    (hc : ∀ x ∈ c, x ≠ btChar) (hd : ∀ x ∈ d, x ≠ btChar) :
    eraseOcc fence (b ++ (p ++ (c ++ (fence ++ d)))) = b ++ (p ++ (c ++ d)) := by
  rw [eraseOcc_append_nobt fence fence_head b _ hb,
    eraseOcc_append_nobt fence fence_head p _ hp,
    eraseOcc_append_nobt fence fence_head c _ hc,
    eraseOcc_self_append fence fence_ne_nil d,
    eraseOcc_of_not_occurs fence d (not_occurs_nobt fence fence_head d hd)]

/-- C7: a reply that is a payload wrapped in a Markdown code fence —
whitespace `a`, the opening marker (with or without the `json` tag),
whitespace `b` (non-empty), a payload `p` that contains no backtick and
starts/ends with non-whitespace, whitespace `c`, the closing marker and
trailing whitespace `d` — cleans to exactly the payload; in particular
the concrete reply from the spec cleans to exactly its JSON payload. -/
theorem clean_response_unwraps_fence (a b c d p : List Char)
    (ha : ∀ x ∈ a, pySpace x = true) (hb : ∀ x ∈ b, pySpace x = true)
    (hc : ∀ x ∈ c, pySpace x = true) (hd : ∀ x ∈ d, pySpace x = true)
    (hbne : b ≠ []) (hpne : p ≠ [])
    (hpbt : ∀ x ∈ p, x ≠ btChar)
    (hph : ∀ x, p.head? = some x → pySpace x = false)
    (hpl : ∀ x, p.getLast? = some x → pySpace x = false) :
    _clean_response ⟨a ++ (fenceJson ++ (b ++ (p ++ (c ++ (fence ++ d)))))⟩ = ⟨p⟩ ∧
    _clean_response ⟨a ++ (fence ++ (b ++ (p ++ (c ++ (fence ++ d)))))⟩ = ⟨p⟩ ∧
    _clean_response "```json\n\x7b\"a\":1\x7d\n```" = "\x7b\"a\":1\x7d" := by
  have hA := nobt_of_ws a ha
  have hB := nobt_of_ws b hb
  have hC := nobt_of_ws c hc
  have hD := nobt_of_ws d hd
  have hab : ∀ x ∈ a ++ b, pySpace x = true := by
    intro x hx
    rcases List.mem_append.mp hx with h | h
    · exact ha x h
    · exact hb x h
  have hcd : ∀ x ∈ c ++ d, pySpace x = true := by
    intro x hx
    rcases List.mem_append.mp hx with h | h
    · exact hc x h
    · exact hd x h
  have hstrip : pyStrip (a ++ (b ++ (p ++ (c ++ d)))) = p := by
    rw [show a ++ (b ++ (p ++ (c ++ d))) = (a ++ b) ++ (p ++ (c ++ d)) from
      (List.append_assoc a b _).symm]
    exact pyStrip_ws_sandwich (a ++ b) p (c ++ d) hab hcd hpne hph hpl
  refine ⟨?_, ?_, by decide⟩
  · show String.mk (pyStrip (eraseOcc fence (eraseOcc fenceJson
      (a ++ (fenceJson ++ (b ++ (p ++ (c ++ (fence ++ d))))))))) = String.mk p
    rw [eraseOcc_fenceJson_tagged a b p c d hA hB hpbt hC hd,
      eraseOcc_fence_chain a b p c d hA hB hpbt hC hD, hstrip]
  · show String.mk (pyStrip (eraseOcc fence (eraseOcc fenceJson
      (a ++ (fence ++ (b ++ (p ++ (c ++ (fence ++ d))))))))) = String.mk p
    rw [eraseOcc_fenceJson_untagged a b p c d hA hB hpbt hC hd hbne hb,
      eraseOcc_append_nobt fence fence_head a _ hA,
      eraseOcc_self_append fence fence_ne_nil _,
      eraseOcc_fence_chain3 b p c d hB hpbt hC hD, hstrip]

/-- Witness for C7: the spec's example reply, built from its parts. -/
theorem clean_response_unwraps_fence_witness :
    ("\x7b\"a\":1\x7d".data ≠ []) ∧ (['\n'] ≠ ([] : List Char)) ∧
    _clean_response ⟨[] ++ (fenceJson ++ (['\n'] ++ ("\x7b\"a\":1\x7d".data ++
      (['\n'] ++ (fence ++ [])))))⟩ = "\x7b\"a\":1\x7d" ∧
    _clean_response "```json\n\x7b\"a\":1\x7d\n```" = "\x7b\"a\":1\x7d" := by
  have h := clean_response_unwraps_fence [] ['\n'] ['\n'] []
    "\x7b\"a\":1\x7d".data (by decide) (by decide) (by decide) (by decide)
    (by decide) (by decide) (by decide)
    (fun x hx => by
      have hx' : some '\x7b' = some x := hx
      cases hx'
      decide)
    (fun x hx => by
      have hx' : some '\x7d' = some x := hx
      cases hx'
      decide)
  exact ⟨by decide, by decide, h.1, h.2.2⟩

/-- C10: `_clean_response` deletes every occurrence of the marker strings
anywhere in the reply, not only leading/trailing fences: for a fenced
reply whose JSON payload holds a triple-backtick inside a string value,
cleaning removes the inner backticks and alters the payload. -/
theorem clean_response_deletes_inner_backticks :
    _clean_response "```json\n\x7b\"code\":\"```\"\x7d\n```" =
      "\x7b\"code\":\"\"\x7d" ∧
    ("\x7b\"code\":\"\"\x7d" : String) ≠ "\x7b\"code\":\"```\"\x7d" :=
  ⟨by decide, by decide⟩
